import Mathlib

/-!
Shallow embedding of the `fileseq` library (`src/fileseq/all.py`): the
frame-range mini-language parser, the `FrameSet` ordered-unique-set value
type, its set algebra, the run compressor `framesToFrameRanges`, and the
padding formatter `padFrameRange`.  Integers are unbounded (`Int`), matching
Python.  Fallible code (Python exceptions) is modelled with `Except`/`Option`.
-/

namespace Fileseq

/-! ### Basic helpers: digits, Python `str`, `str.zfill` -/

/-- Decimal value of a digit string (Python `int` on the digit part). -/
def digitsToNat (ds : List Char) : Nat :=
  ds.foldl (fun n c => 10 * n + (c.toNat - 48)) 0

/-- Signed integer from a sign flag and a digit group (Python `int("-123")`). -/
def intOfGroup (neg : Bool) (ds : List Char) : Int :=
  if neg then -(digitsToNat ds : Int) else (digitsToNat ds : Int)

/-- Python `str(n)` for an int. -/
def pyStr (n : Int) : String := toString n

/-- Left-pad a pure digit group with zeros to width `w` (Python `"123".zfill(w)`
on a sign-free digit string). -/
def zfillDigits (w : Nat) (ds : List Char) : List Char :=
  List.replicate (w - ds.length) '0' ++ ds

/-- Python `str(n).zfill(w)`: the zero padding goes after the `-` sign,
mirroring the source's `pad(number, width)` helper. -/
def pyZfill (n : Int) (w : Nat) : String :=
  match (toString n).toList with
  | '-' :: rest => String.mk ('-' :: zfillDigits (w - 1) rest)
  | l => String.mk (zfillDigits w l)

/-! ### Sequence Expander: `xfrange` (all.py lines 37-53) -/

/-- Length of Python `xrange(start, stop, step)`. -/
def xrangeLen (start stop step : Int) : Nat :=
  if 0 < step then
    (if start < stop then ((stop - start).toNat + step.toNat - 1) / step.toNat else 0)
  else if step < 0 then
    (if stop < start then ((start - stop).toNat + (-step).toNat - 1) / (-step).toNat else 0)
  else 0

/-- Python `xrange(start, stop, step)` as a list. -/
def xrangeList (start stop step : Int) : List Int :=
  (List.range (xrangeLen start stop step)).map (fun i : Nat => start + step * (i : Int))

/-- `xfrange(start, stop, step)`: inclusive range; the direction is inferred
from `start <= stop` and the sign of `step` is discarded (`abs`).  The
library never calls it with `step = 0` (the parser rejects zero chunks);
`xrangeList` returns `[]` there, where Python's `xrange` would raise. -/
def xfrange (start stop step : Int) : List Int :=
  if start ≤ stop then xrangeList start (stop + 1) (step.natAbs : Int)
  else xrangeList start (stop - 1) (-(step.natAbs : Int))

/-! ### Range-Part Parser: `_RANGE_RE` and `_parse_frange_part` -/

/-- Maximal leading digit run of a character list, with the rest. -/
def spanDigits : List Char → List Char × List Char
  | [] => ([], [])
  | c :: rest =>
    if c.isDigit then
      ((spanDigits rest).1.cons c, (spanDigits rest).2)
    else ([], c :: rest)

/-- Take a leading `-` sign (regex `\-?` followed by `\d+`): the sign is
consumed only when a digit follows, which is exactly what backtracking of
`(\-?)(\d+)` yields. -/
def takeSign : List Char → Bool × List Char
  | [] => (false, [])
  | c :: rest =>
    if c = '-' ∧ (rest.headD ' ').isDigit then (true, rest) else (false, c :: rest)

/-- Anchored match of `_RANGE_RE`
`^(\-?\d+)(?:\-(\-?\d+)(?:([:xy]\x7b1\x7d)(\d+))?)?$` against one clause,
returning the four capture groups (sign+digits, optionally sign+digits,
optionally modifier char + chunk digits).  The regex is deterministic on
this grammar, so a straight-line match is faithful. -/
def matchFrangeChars (l : List Char) :
    Option (Bool × List Char × Option (Bool × List Char × Option (Char × List Char))) :=
  match spanDigits (takeSign l).2 with
  | ([], _) => none
  | (d1, []) => some ((takeSign l).1, d1, none)
  | (d1, '-' :: l3) =>
    match spanDigits (takeSign l3).2 with
    | ([], _) => none
    | (d2, []) => some ((takeSign l).1, d1, some ((takeSign l3).1, d2, none))
    | (d2, m :: l6) =>
      if m = ':' ∨ m = 'x' ∨ m = 'y' then
        match spanDigits l6 with
        | ([], _) => none
        | (d3, []) => some ((takeSign l).1, d1, some ((takeSign l3).1, d2, some (m, d3)))
        | (_, _ :: _) => none
      else none
  | (_, _ :: _) => none

/-- The pattern text reported by the "did not match" error message. -/
def rangePattern : String :=
  "^(\\-?\\d+)(?:\\-(\\-?\\d+)(?:([:xy]\x7b1\x7d)(\\d+))?)?$"

/-- `FrameSet._parse_frange_part`: parse one comma-separated clause into
`(start, end, modifier, chunk)`; `end` defaults to `start`, `chunk` to `1`,
`chunk = 0` is rejected.  `Except.error` models the raised
`ParseException` with its exact message. -/
def parseFrangePart (s : String) : Except String (Int × Int × Option Char × Int) :=
  match matchFrangeChars s.toList with
  | none =>
    .error ("Could not parse \"" ++ s ++ "\": did not match " ++ rangePattern)
  | some (n1, d1, rest) =>
    let start := intOfGroup n1 d1
    let t : Int × Option Char × Int :=
      match rest with
      | none => (start, none, 1)
      | some (n2, d2, none) => (intOfGroup n2 d2, none, 1)
      | some (n2, d2, some (m, d3)) => (intOfGroup n2 d2, some m, (digitsToNat d3 : Int))
    if t.2.2 = 0 then .error ("Could not parse \"" ++ s ++ "\": chunk cannot be 0")
    else .ok (start, t.1, t.2.1, t.2.2)

/-! ### FrameSet construction (`FrameSet.__init__`) -/

/-- The `FrameSet` value: `_frange` source text, `_order` insertion-ordered
frames, `_items` the frame set. -/
structure FrameSet where
  frange : String
  order : List Int
  items : Finset Int
deriving DecidableEq

/-- `str(frange).translate(None, '#@')`: delete every `#` and `@`. -/
def stripPad (s : String) : String :=
  String.mk (s.toList.filter (fun c => ¬(c = '#' ∨ c = '@')))

/-- Python `"s".split(",")` on character lists. -/
def splitCommas : List Char → List (List Char)
  | [] => [[]]
  | c :: rest =>
    if c = ',' then [] :: splitCommas rest
    else
      match splitCommas rest with
      | [] => [[c]]
      | h :: t => (c :: h) :: t

/-- One `__init__` loop step over a clause's candidate frame list: keep the
frames not already seen, extend `order`, update `items`. -/
def pushFrames (st : Finset Int × List Int) (l : List Int) : Finset Int × List Int :=
  (st.1 ∪ (l.filter (fun f => f ∉ st.1)).toFinset,
   st.2 ++ l.filter (fun f => f ∉ st.1))

/-- `xrange(chunk, 0, -1)`: the stagger strides `chunk, chunk-1, ..., 1`. -/
def staggerStrides (chunk : Int) : List Int := xrangeList chunk 0 (-1)

/-- Expansion of one parsed clause, dispatching on the modifier exactly as
the `__init__` loop does ('x' strided, ':' staggered, 'y' inverse fill,
otherwise a plain run with step `1 if start < end else -1`). -/
def expandPart (st : Finset Int × List Int) (p : Int × Int × Option Char × Int) :
    Finset Int × List Int :=
  match p with
  | (start, end_, some 'x', chunk) => pushFrames st (xfrange start end_ chunk)
  | (start, end_, some ':', chunk) =>
    (staggerStrides chunk).foldl (fun st k => pushFrames st (xfrange start end_ k)) st
  | (start, end_, some 'y', chunk) =>
    pushFrames st
      ((xfrange start end_ 1).filter (fun f => f ∉ (xfrange start end_ chunk).toFinset))
  | (start, end_, _, _) =>
    pushFrames st (xfrange start end_ (if start < end_ then 1 else -1))

/-- The per-part loop of `__init__`: empty parts are skipped, a parse
failure aborts the whole construction (the exception propagates). -/
def parseParts (st : Finset Int × List Int) :
    List (List Char) → Except String (Finset Int × List Int)
  | [] => .ok st
  | p :: rest =>
    if p = [] then parseParts st rest
    else
      match parseFrangePart (String.mk p) with
      | .error e => .error e
      | .ok tup => parseParts (expandPart st tup) rest

/-- Body of `__init__` after the padding characters have been stripped. -/
def parseStripped (stripped : String) : Except String FrameSet :=
  if stripped = "" then .ok ⟨stripped, [], ∅⟩
  else
    match parseParts (∅, []) (splitCommas stripped.toList) with
    | .error e => .error e
    | .ok st => .ok ⟨stripped, st.2, st.1⟩

/-- `FrameSet(frange)` for a string argument: strip `#`/`@` everywhere,
then parse the comma-separated clauses. -/
def parseFrameSet (frange : String) : Except String FrameSet :=
  parseStripped (stripPad frange)

/-- `FrameSet.isFrameRange`: same stripping, `True` iff every nonempty
clause parses. -/
def isFrameRange (frange : String) : Bool :=
  (splitCommas (stripPad frange).toList).all
    (fun part => part = [] || (parseFrangePart (String.mk part)).toBool)

/-! ### Run Compressor: `_build_frange_part`, `framesToFrameRanges`,
`framesToFrameRange` -/

/-- `FrameSet._build_frange_part(start, stop, stride, zfill)`.  A `none`
stop renders the empty string (start is then unused, so any value may be
passed for it). -/
def buildFrangePart (start : Int) (stop : Option Int) (stride : Option Int)
    (zfill : Nat) : String :=
  match stop with
  | none => ""
  | some stp =>
    let padStart := pyZfill start zfill
    match stride with
    | none => padStart
    | some k =>
      if start = stp then padStart
      else if k.natAbs = 1 then padStart ++ "-" ++ pyZfill stp zfill
      else padStart ++ "-" ++ pyZfill stp zfill ++ "x" ++ pyStr k

/-- Loop state of `framesToFrameRanges`: either no frame seen yet, or an
open run `(curr_start, curr_stride, last_frame, curr_frame, curr_count)`. -/
inductive RCState where
  | empty : RCState
  | run (start : Int) (stride : Option Int) (last : Int) (cur : Int) (count : Nat) : RCState
deriving DecidableEq

/-- One iteration of the `framesToFrameRanges` loop: returns the new state
and the tokens yielded during this iteration. -/
def rcStep (z : Nat) (st : RCState) (f : Int) : RCState × List String :=
  match st with
  | .empty => (.run f none f f 1, [])
  | .run start stride last _ count =>
    let cs : Int :=
      match stride with
      | none => ((f - start).natAbs : Int)
      | some k => k
    let ns : Int := ((f - last).natAbs : Int)
    if cs = ns then (.run start (some cs) f f (count + 1), [])
    else if count = 2 then
      (.run last (some ns) f f count, [buildFrangePart start (some start) none z])
    else
      (.run f none f f 1, [buildFrangePart start (some last) (some cs) z])

/-- The post-loop flush of `framesToFrameRanges`: a run of exactly 2 members
is emitted as two standalone single-frame tokens, anything else as one
token (the empty-input flush yields `_build(None, None, None)`, i.e. `""`). -/
def rcFinish (z : Nat) : RCState → List String
  | .empty => [buildFrangePart 0 none none z]
  | .run start stride _ cur count =>
    if count = 2 then
      [buildFrangePart start (some start) none z, buildFrangePart cur (some cur) none z]
    else [buildFrangePart start (some cur) stride z]

/-- The fold of `rcStep` over the input, accumulating yielded tokens. -/
def rcFold (z : Nat) (frames : List Int) : RCState × List String :=
  frames.foldl
    (fun acc f =>
      let s := rcStep z acc.1 f
      (s.1, acc.2 ++ s.2))
    (RCState.empty, [])

/-- `FrameSet.framesToFrameRanges(frames, zfill)` as the list of yielded
tokens. -/
def framesToFrameRanges (frames : List Int) (zfill : Nat) : List String :=
  (rcFold zfill frames).2 ++ rcFinish zfill (rcFold zfill frames).1

/-- `unique(seen, iterable)`: drop elements already seen, keeping the first
occurrence; `seen` accumulates emitted elements. -/
def uniqueList (seen : Finset Int) : List Int → List Int
  | [] => []
  | a :: l => if a ∈ seen then uniqueList seen l else a :: uniqueList (insert a seen) l

/-- Insert into a sorted list (helper for `pySorted`). -/
def insertSorted (a : Int) : List Int → List Int
  | [] => [a]
  | b :: l => if a ≤ b then a :: b :: l else b :: insertSorted a l

/-- Python `sorted` on integers: ascending, duplicates kept.  (Insertion
sort; on `Int` keys its output coincides with any stable sort.) -/
def pySorted (l : List Int) : List Int := l.foldr insertSorted []

/-- `','.join(...)`. -/
def joinCommas : List String → String
  | [] => ""
  | [s] => s
  | s :: rest => s ++ "," ++ joinCommas rest

/-- `FrameSet.framesToFrameRange(frames, sort, zfill, compress)`. -/
def framesToFrameRange (frames : List Int) (sort : Bool) (zfill : Nat)
    (compress : Bool) : String :=
  let fs0 := if compress then uniqueList ∅ frames else frames
  match fs0 with
  | [] => ""
  | [f] => pyZfill f zfill
  | _ =>
    joinCommas (framesToFrameRanges (if sort then pySorted fs0 else fs0) zfill)

/-! ### `from_iterable`, coercion, algebra, comparisons -/

/-- `FrameSet.from_iterable(frames, sort)`: de-duplicate (first occurrence
wins) after an optional sort; `_frange` is re-derived by the compressor
with `sort=False, compress=False`. -/
def fromIterableList (sort : Bool) (frames : List Int) : FrameSet :=
  let ordered := uniqueList ∅ (if sort then pySorted frames else frames)
  ⟨framesToFrameRange ordered false 0 false, ordered, ordered.toFinset⟩

/-- `from_iterable(S, sort=True)` for a set argument `S` (what every algebra
method calls): `sorted(S)` enumerates `S` ascending, i.e. `Finset.sort`. -/
def fromIterableFinset (s : Finset Int) : FrameSet :=
  fromIterableList false (s.sort (· ≤ ·))

/-- A Python operand of a comparison/algebra method: a `FrameSet`, some
other iterable of ints, or a non-iterable object. -/
inductive PyOperand where
  | fs (a : FrameSet)
  | iter (l : List Int)
  | notIterable
deriving DecidableEq

/-- `FrameSet._cast_to_frameset(other)`: `none` models the
`NotImplemented` sentinel. -/
def castToFrameSet : PyOperand → Option FrameSet
  | .fs a => some a
  | .iter l => some (fromIterableList false l)
  | .notIterable => none

/-- Python `set(other)`: iterating a `FrameSet` walks `order`; a
non-iterable raises `TypeError`, modelled as `none`. -/
def pySet : PyOperand → Option (Finset Int)
  | .fs a => some a.order.toFinset
  | .iter l => some l.toFinset
  | .notIterable => none

/-- `FrameSet.union(self, other)`: coerces via `set(other)` directly (NOT
via `_cast_to_frameset`), so a non-iterable operand raises `TypeError`. -/
def FrameSet.union (a : FrameSet) (o : PyOperand) : Except String FrameSet :=
  match pySet o with
  | none => .error "TypeError: argument of set() is not iterable"
  | some s => .ok (fromIterableFinset (a.items ∪ s))

/-- `FrameSet.intersection(self, other)`, same `set(other)` coercion. -/
def FrameSet.intersection (a : FrameSet) (o : PyOperand) : Except String FrameSet :=
  match pySet o with
  | none => .error "TypeError: argument of set() is not iterable"
  | some s => .ok (fromIterableFinset (a.items ∩ s))

/-- `FrameSet.difference(self, other)`, same `set(other)` coercion. -/
def FrameSet.difference (a : FrameSet) (o : PyOperand) : Except String FrameSet :=
  match pySet o with
  | none => .error "TypeError: argument of set() is not iterable"
  | some s => .ok (fromIterableFinset (a.items \ s))

/-- `FrameSet.symmetric_difference(self, other)`: coerces via
`_cast_to_frameset`, `none` = `NotImplemented`. -/
def FrameSet.symmetric_difference (a : FrameSet) (o : PyOperand) : Option FrameSet :=
  (castToFrameSet o).map fun b =>
    fromIterableFinset ((a.items \ b.items) ∪ (b.items \ a.items))

/-- `FrameSet.isdisjoint`. -/
def FrameSet.isdisjoint (a : FrameSet) (o : PyOperand) : Option Bool :=
  (castToFrameSet o).map fun b => decide (a.items ∩ b.items = ∅)

/-- `FrameSet.issubset`. -/
def FrameSet.issubset (a : FrameSet) (o : PyOperand) : Option Bool :=
  (castToFrameSet o).map fun b => decide (a.items ⊆ b.items)

/-- `FrameSet.issuperset`. -/
def FrameSet.issuperset (a : FrameSet) (o : PyOperand) : Option Bool :=
  (castToFrameSet o).map fun b => decide (b.items ⊆ a.items)

/-- Python tuple lexicographic `<` on int tuples. -/
def listLt : List Int → List Int → Bool
  | [], [] => false
  | [], _ :: _ => true
  | _ :: _, [] => false
  | a :: l, b :: m => if a < b then true else if b < a then false else listLt l m

/-- `FrameSet.__lt__`: proper-subset ordering, ties broken by `order`. -/
def FrameSet.ltOp (a : FrameSet) (o : PyOperand) : Option Bool :=
  (castToFrameSet o).map fun b =>
    decide (a.items ⊂ b.items) || (decide (a.items = b.items) && listLt a.order b.order)

/-- `FrameSet.__le__`. -/
def FrameSet.leOp (a : FrameSet) (o : PyOperand) : Option Bool :=
  (castToFrameSet o).map fun b => decide (a.items ⊆ b.items)

/-- `FrameSet.__ge__`. -/
def FrameSet.geOp (a : FrameSet) (o : PyOperand) : Option Bool :=
  (castToFrameSet o).map fun b => decide (b.items ⊆ a.items)

/-- `FrameSet.__gt__`. -/
def FrameSet.gtOp (a : FrameSet) (o : PyOperand) : Option Bool :=
  (castToFrameSet o).map fun b =>
    decide (b.items ⊂ a.items) || (decide (a.items = b.items) && listLt b.order a.order)

/-- `FrameSet.__and__` (and `__rand__`): cast, then intersect `items`. -/
def FrameSet.andOp (a : FrameSet) (o : PyOperand) : Option FrameSet :=
  (castToFrameSet o).map fun b => fromIterableFinset (a.items ∩ b.items)

/-- `FrameSet.__or__` (and `__ror__`). -/
def FrameSet.orOp (a : FrameSet) (o : PyOperand) : Option FrameSet :=
  (castToFrameSet o).map fun b => fromIterableFinset (a.items ∪ b.items)

/-- `FrameSet.__sub__`. -/
def FrameSet.subOp (a : FrameSet) (o : PyOperand) : Option FrameSet :=
  (castToFrameSet o).map fun b => fromIterableFinset (a.items \ b.items)

/-- `FrameSet.__xor__` (and `__rxor__`). -/
def FrameSet.xorOp (a : FrameSet) (o : PyOperand) : Option FrameSet :=
  (castToFrameSet o).map fun b =>
    fromIterableFinset ((a.items \ b.items) ∪ (b.items \ a.items))

/-! ### CPython 2 (64-bit) `hash`, as used by `__hash__` and `__eq__`

`FrameSet.__hash__` returns `hash(frange) | hash(items) | hash(order)` and
`FrameSet.__eq__` compares `hash(items) | hash(order)`, so the builtin
hashes of `str`, `int`, `frozenset` and `tuple` are part of the observable
behaviour.  They are embedded below as 64-bit patterns (Nat mod 2^64),
following CPython 2.7's `string_hash`, `int_hash`, `frozenset_hash` and
`tuplehash` on a 64-bit platform (no hash randomization). -/

/-- 2^64. -/
def M64 : Nat := 18446744073709551616

/-- CPython 2 `hash` of a `str` (64-bit pattern). -/
def pyHashStr (s : String) : Nat :=
  match s.toList with
  | [] => 0
  | c :: _ =>
    let x0 := (c.toNat <<< 7) % M64
    let x := s.toList.foldl (fun x c => ((1000003 * x) % M64) ^^^ c.toNat) x0
    let x := x ^^^ s.toList.length
    if x = M64 - 1 then M64 - 2 else x

/-- CPython 2 `hash` of an `int` (64-bit pattern; `-1` hashes to `-2`). -/
def pyHashInt (n : Int) : Nat :=
  ((if n = -1 then -2 else n) % (M64 : Int)).toNat

/-- Per-element combination step of CPython 2's `frozenset_hash`:
`hash ^= (h ^ (h << 16) ^ 89869747) * 3644798167`. -/
def fsHashTerm (e : Int) (acc : Nat) : Nat :=
  acc ^^^ ((pyHashInt e ^^^ ((pyHashInt e <<< 16) % M64) ^^^ 89869747) * 3644798167) % M64

instance : LeftCommutative fsHashTerm :=
  ⟨fun a b acc => by
    show fsHashTerm a (fsHashTerm b acc) = fsHashTerm b (fsHashTerm a acc)
    unfold fsHashTerm
    rw [Nat.xor_assoc, Nat.xor_comm
      (((pyHashInt b ^^^ (pyHashInt b <<< 16) % M64 ^^^ 89869747) * 3644798167) % M64),
      ← Nat.xor_assoc]⟩

/-- CPython 2 `hash` of a `frozenset` of ints.  The per-element terms are
combined with XOR, so the set's iteration order is irrelevant and the fold
is well-defined on the underlying multiset. -/
def pyHashFrozenset (s : Finset Int) : Nat :=
  let h0 := (1927868237 * (s.card + 1)) % M64
  let h := Multiset.foldr fsHashTerm h0 s.val
  let h := (h * 69069 + 907133923) % M64
  if h = M64 - 1 then M64 - 2 else h

/-- CPython 2 `hash` of a tuple of ints. -/
def pyHashTuple (l : List Int) : Nat :=
  let n := l.length
  let r := l.foldl
    (fun acc e =>
      let x := ((acc.1 ^^^ pyHashInt e) * acc.2.1) % M64
      let rem := acc.2.2 - 1
      (x, ((acc.2.1 + 82520 + 2 * rem) % M64, rem)))
    (0x345678, (1000003, n))
  let x := (r.1 + 97531) % M64
  if x = M64 - 1 then M64 - 2 else x

/-- The value `hash(self.items) | hash(self.order)` that `__eq__` compares. -/
def pyEqBits (a : FrameSet) : Nat :=
  pyHashFrozenset a.items ||| pyHashTuple a.order

/-- `FrameSet.__eq__(self, other)`: `none` is `NotImplemented`; FrameSets
are compared by `hash(items) | hash(order)`. -/
def FrameSet.eqOp (a : FrameSet) (o : PyOperand) : Option Bool :=
  match o with
  | .notIterable => none
  | .fs b => some (decide (pyEqBits a = pyEqBits b))
  | .iter l => some (decide (pyEqBits a = pyEqBits (fromIterableList false l)))

/-- `FrameSet.__hash__(self)` = `hash(frange) | hash(items) | hash(order)`. -/
def pyHashFrameSet (a : FrameSet) : Nat :=
  pyHashStr a.frange ||| pyHashFrozenset a.items ||| pyHashTuple a.order

/-! ### Padding Formatter: `_PAD_RE` and `padFrameRange` -/

/-- Replacement text for one matched group pair: optional sign, then the
zero-filled digit group (the sign is kept outside the padding width). -/
def padBase (w : Nat) (sg : Bool) (ds : List Char) : List Char :=
  (if sg then ['-'] else []) ++ zfillDigits w ds

/-- The optional `(?:([:xy]\x7b1\x7d)(\d+))?` tail of `_PAD_RE`, given the
characters after the second digit group: returns the extra replacement
text (modifier and chunk copied verbatim) and the unconsumed rest. -/
def padTail3 (l5 : List Char) : List Char × List Char :=
  match l5 with
  | m :: l6 =>
    if m = ':' ∨ m = 'x' ∨ m = 'y' then
      match spanDigits l6 with
      | ([], _) => ([], m :: l6)
      | (d3, l7) => (m :: d3, l7)
    else ([], m :: l6)
  | [] => ([], [])

/-- The optional `(?:(\-)(\-?)(\d+)...)?` tail of `_PAD_RE`, given the
characters after the first digit group: returns the extra replacement text
(separator and second sign copied, second digit group zfilled) and the
unconsumed rest. -/
def padTail2 (w : Nat) (l2 : List Char) : List Char × List Char :=
  match l2 with
  | '-' :: l3 =>
    match spanDigits (takeSign l3).2 with
    | ([], _) => ([], '-' :: l3)
    | (d2, l5) =>
      ('-' :: (padBase w (takeSign l3).1 d2 ++ (padTail3 l5).1), (padTail3 l5).2)
  | _ => ([], l2)

/-- Attempt a match of `_PAD_RE`
`(\-?)(\d+)(?:(\-)(\-?)(\d+)(?:([:xy]\x7b1\x7d)(\d+))?)?` at the head of
`l`, returning the replacement text produced by `_do_pad` (signs kept,
first/second digit groups zfilled, modifier and chunk untouched) and the
unconsumed rest.  Matches the regex's backtracking on this pattern. -/
def matchPadAt (w : Nat) (l : List Char) : Option (List Char × List Char) :=
  match spanDigits (takeSign l).2 with
  | ([], _) => none
  | (d1, l2) =>
    some (padBase w (takeSign l).1 d1 ++ (padTail2 w l2).1, (padTail2 w l2).2)

/-- `_PAD_RE.sub(_do_pad, frange)` scan, with explicit structural fuel:
every match consumes at least one character (`matchPadAt_rest_length`), so
`fuel = l.length` always suffices and the fuel-exhausted arm is
unreachable (see `padSubAux_fuel`). -/
def padSubAux (w : Nat) : Nat → List Char → List Char
  | _, [] => []
  | 0, l => l
  | fuel + 1, c :: rest =>
    match matchPadAt w (c :: rest) with
    | some pr => pr.1 ++ padSubAux w fuel pr.2
    | none => c :: padSubAux w fuel rest

/-- `_PAD_RE.sub(_do_pad, frange)`: scan left to right, replacing each
leftmost nonoverlapping match and copying unmatched characters. -/
def padSub (w : Nat) (l : List Char) : List Char := padSubAux w l.length l

/-- `FrameSet.padFrameRange(frange, zfill)`. -/
def padFrameRange (frange : String) (zfill : Nat) : String :=
  String.mk (padSub zfill frange.toList)

/-! ### Auxiliary notions used only by the statements and proofs -/

instance instDecEqExcept {ε α : Type} [DecidableEq ε] [DecidableEq α] :
    DecidableEq (Except ε α) := fun a b =>
  match a, b with
  | .error x, .error y =>
    if h : x = y then .isTrue (congrArg Except.error h)
    else .isFalse (fun hc => h (by cases hc; rfl))
  | .error _, .ok _ => .isFalse (fun hc => Except.noConfusion hc)
  | .ok _, .error _ => .isFalse (fun hc => Except.noConfusion hc)
  | .ok x, .ok y =>
    if h : x = y then .isTrue (congrArg Except.ok h)
    else .isFalse (fun hc => h (by cases hc; rfl))

/-- The documented `FrameSet` invariant: `members == setOf(order)` with no
duplicate in `order`. -/
def Valid (fs : FrameSet) : Prop :=
  fs.items = fs.order.toFinset ∧ fs.order.Nodup

instance (fs : FrameSet) : Decidable (Valid fs) := by
  unfold Valid
  infer_instance

/-- The invariant of the `(items, order)` accumulator inside `__init__`. -/
def ValidSt (st : Finset Int × List Int) : Prop :=
  st.1 = st.2.toFinset ∧ st.2.Nodup

/-- `FrameSet.normalize()`: re-parse the compression of the sorted items. -/
def FrameSet.normalize (fs : FrameSet) : Except String FrameSet :=
  parseFrameSet (framesToFrameRange (fs.items.sort (· ≤ ·)) true 0 false)

/-- The capture groups of one `_RANGE_RE` clause: first sign and digit
group, optionally the second sign and digit group, optionally the modifier
character and the chunk digit group. -/
abbrev ClauseGroups :=
  Bool × List Char × Option (Bool × List Char × Option (Char × List Char))

/-- The clause text whose `_RANGE_RE` capture groups are `g`. -/
def renderGroups (g : ClauseGroups) : List Char :=
  (if g.1 then ['-'] else []) ++ g.2.1 ++
    (match g.2.2 with
     | none => []
     | some (n2, d2, m) =>
       '-' :: ((if n2 then ['-'] else []) ++ d2 ++
         (match m with
          | none => []
          | some (mc, d3) => mc :: d3)))

/-- The same clause with both literal integer digit groups zero-filled to
width `w`: signs, the `-` separator, the modifier and the chunk digits are
untouched.  This is the shape `padFrameRange` is claimed to produce. -/
def paddedGroups (w : Nat) (g : ClauseGroups) : List Char :=
  padBase w g.1 g.2.1 ++
    (match g.2.2 with
     | none => []
     | some (n2, d2, m) =>
       '-' :: (padBase w n2 d2 ++
         (match m with
          | none => []
          | some (mc, d3) => mc :: d3)))

/-- Well-formedness of clause capture groups: digit groups are nonempty
digit runs and the modifier is one of `:`, `x`, `y`. -/
def GroupsWF (g : ClauseGroups) : Prop :=
  g.2.1 ≠ [] ∧ (∀ c ∈ g.2.1, c.isDigit = true) ∧
    (match g.2.2 with
     | none => True
     | some (_, d2, m) =>
       d2 ≠ [] ∧ (∀ c ∈ d2, c.isDigit = true) ∧
         (match m with
          | none => True
          | some (mc, d3) =>
            (mc = ':' ∨ mc = 'x' ∨ mc = 'y') ∧ d3 ≠ [] ∧ ∀ c ∈ d3, c.isDigit = true))

/-- Join character-list clauses with `,` (the shape of a full range
string). -/
def joinCharComma : List (List Char) → List Char
  | [] => []
  | [x] => x
  | x :: rest => x ++ ',' :: joinCharComma rest

/-- The union of the frame sets of `xfrange s e k` over a list of strides
(the set the staggered `:` modifier accumulates). -/
def xfrangeUnion (s e : Int) : List Int → Finset Int
  | [] => ∅
  | k :: t => (xfrange s e k).toFinset ∪ xfrangeUnion s e t

/-! ### Supporting lemmas -/

theorem spanDigits_length (l : List Char) :
    (spanDigits l).1.length + (spanDigits l).2.length = l.length := by
  induction l with
  | nil => simp [spanDigits]
  | cons c rest ih =>
    by_cases h : c.isDigit
    · simp [spanDigits, h]
      omega
    · simp [spanDigits, h]

theorem takeSign_length (l : List Char) : (takeSign l).2.length ≤ l.length := by
  cases l with
  | nil => simp [takeSign]
  | cons c rest =>
    simp only [takeSign]
    split <;> simp

theorem padTail3_length (l5 : List Char) : (padTail3 l5).2.length ≤ l5.length := by
  unfold padTail3
  split
  · rename_i m l6
    split
    · split
      · simp
      · rename_i d3 l7 hne heq
        have h5 := spanDigits_length l6
        rw [heq] at h5
        simp only [List.length_cons]
        simp at h5
        omega
    · simp
  · simp

theorem padTail2_length (w : Nat) (l2 : List Char) :
    (padTail2 w l2).2.length ≤ l2.length := by
  unfold padTail2
  split
  · rename_i l3
    split
    · simp
    · rename_i d2 l5 hne heq
      have h3 := takeSign_length l3
      have h4 := spanDigits_length (takeSign l3).2
      rw [heq] at h4
      simp at h4
      have h6 := padTail3_length l5
      simp only [List.length_cons]
      omega
  · simp

theorem matchPadAt_rest_length {w : Nat} {l rep rest : List Char}
    (h : matchPadAt w l = some (rep, rest)) : rest.length < l.length := by
  have h1 : (takeSign l).2.length ≤ l.length := takeSign_length l
  have h2 := spanDigits_length (takeSign l).2
  unfold matchPadAt at h
  split at h
  · exact absurd h (by simp)
  · rename_i d1 l2 hne heq
    rw [heq] at h2
    simp at h2
    simp only [Option.some.injEq, Prod.mk.injEq] at h
    have h6 := padTail2_length w l2
    have hnz : d1.length ≠ 0 := fun hc => hne (List.length_eq_zero.mp hc)
    rw [← h.2]
    omega

/-- The scan result does not depend on the fuel, as long as the fuel covers
the length of the input. -/
theorem padSubAux_fuel (w : Nat) :
    ∀ f1 f2 l, l.length ≤ f1 → l.length ≤ f2 → padSubAux w f1 l = padSubAux w f2 l := by
  intro f1
  induction f1 with
  | zero =>
    intro f2 l h1 _
    have : l = [] := List.length_eq_zero.mp (Nat.le_zero.mp h1)
    subst this
    cases f2 <;> simp [padSubAux]
  | succ f1 ih =>
    intro f2 l h1 h2
    match l with
    | [] => cases f2 <;> simp [padSubAux]
    | c :: rest =>
      match f2 with
      | 0 => exact absurd h2 (by simp)
      | f2 + 1 =>
        simp only [padSubAux]
        cases hm : matchPadAt w (c :: rest) with
        | some pr =>
          have hlen := @matchPadAt_rest_length w (c :: rest) pr.1 pr.2 (by rw [hm])
          simp only [List.length_cons] at h1 h2 hlen
          dsimp only
          rw [ih f2 pr.2 (by omega) (by omega)]
        | none =>
          simp only [List.length_cons] at h1 h2
          dsimp only
          rw [ih f2 rest (by omega) (by omega)]

theorem xrangeList_pairwise_pos {start stop step : Int} (h : 0 < step) :
    List.Pairwise (· < ·) (xrangeList start stop step) := by
  unfold xrangeList
  rw [List.pairwise_map]
  refine (List.pairwise_lt_range _).imp ?_
  intro i j hij
  have hc : (i : Int) < (j : Int) := by exact_mod_cast hij
  have := mul_lt_mul_of_pos_left hc h
  omega

theorem xrangeList_pairwise_neg {start stop step : Int} (h : step < 0) :
    List.Pairwise (· > ·) (xrangeList start stop step) := by
  unfold xrangeList
  rw [List.pairwise_map]
  refine (List.pairwise_lt_range _).imp ?_
  intro i j hij
  have hc : (i : Int) < (j : Int) := by exact_mod_cast hij
  have := mul_lt_mul_of_neg_left hc h
  omega

theorem xrangeList_step_zero (start stop : Int) : xrangeList start stop 0 = [] := by
  simp [xrangeList, xrangeLen]

theorem xfrange_pairwise_asc {s e : Int} (h : s ≤ e) (k : Int) :
    List.Pairwise (· < ·) (xfrange s e k) := by
  unfold xfrange
  rw [if_pos h]
  rcases Nat.eq_zero_or_pos k.natAbs with h0 | h0
  · rw [h0]
    rw [show ((0 : Nat) : Int) = 0 from rfl, xrangeList_step_zero]
    exact List.Pairwise.nil
  · exact xrangeList_pairwise_pos (by exact_mod_cast h0)

theorem xfrange_pairwise_desc {s e : Int} (h : e < s) (k : Int) :
    List.Pairwise (· > ·) (xfrange s e k) := by
  unfold xfrange
  rw [if_neg (not_le.mpr h)]
  rcases Nat.eq_zero_or_pos k.natAbs with h0 | h0
  · rw [h0]
    rw [show -((0 : Nat) : Int) = 0 by simp, xrangeList_step_zero]
    exact List.Pairwise.nil
  · refine xrangeList_pairwise_neg ?_
    simp only [Left.neg_neg_iff]
    exact_mod_cast h0

theorem xfrange_nodup (s e k : Int) : (xfrange s e k).Nodup := by
  rcases le_or_lt s e with h | h
  · exact (xfrange_pairwise_asc h k).imp ne_of_lt
  · exact (xfrange_pairwise_desc h k).imp ne_of_gt

theorem xfrange_mem_bounds {s e k x : Int} (hse : s ≤ e) (hx : x ∈ xfrange s e k) :
    s ≤ x ∧ x ≤ e := by
  unfold xfrange at hx
  rw [if_pos hse] at hx
  unfold xrangeList at hx
  simp only [List.mem_map, List.mem_range] at hx
  obtain ⟨i, hi, rfl⟩ := hx
  rcases Nat.eq_zero_or_pos k.natAbs with h0 | h0
  · rw [h0] at hi
    rw [show ((0 : Nat) : Int) = 0 from rfl] at hi
    simp [xrangeLen] at hi
  · unfold xrangeLen at hi
    rw [if_pos (by exact_mod_cast h0 : (0 : Int) < (k.natAbs : Int)),
      if_pos (by omega : s < e + 1)] at hi
    rw [Int.toNat_natCast] at hi
    have hd : 1 ≤ (e + 1 - s).toNat := by omega
    have hrw : (e + 1 - s).toNat + k.natAbs - 1 = ((e + 1 - s).toNat - 1) + k.natAbs := by
      omega
    rw [hrw, Nat.add_div_right _ h0] at hi
    have hile : i ≤ ((e + 1 - s).toNat - 1) / k.natAbs := by omega
    have h3 : k.natAbs * i ≤ k.natAbs * (((e + 1 - s).toNat - 1) / k.natAbs) :=
      Nat.mul_le_mul_left k.natAbs hile
    have h4 : k.natAbs * (((e + 1 - s).toNat - 1) / k.natAbs) ≤ (e + 1 - s).toNat - 1 := by
      rw [Nat.mul_comm]
      exact Nat.div_mul_le_self _ _
    have hc : ((k.natAbs * i : Nat) : Int) = (k.natAbs : Int) * (i : Int) := by
      push_cast
      ring
    omega

theorem mem_xfrange_one {s e x : Int} (hse : s ≤ e) :
    x ∈ xfrange s e 1 ↔ s ≤ x ∧ x ≤ e := by
  unfold xfrange xrangeList xrangeLen
  rw [if_pos hse]
  simp only [Int.natAbs_one, Nat.cast_one]
  rw [if_pos (by norm_num : (0 : Int) < 1), if_pos (by omega : s < e + 1)]
  simp only [Int.toNat_one, Nat.add_sub_cancel, Nat.div_one, List.mem_map,
    List.mem_range, one_mul]
  constructor
  · rintro ⟨i, hi, rfl⟩
    omega
  · intro hb
    exact ⟨(x - s).toNat, by omega, by omega⟩

theorem xfrange_one_toFinset {s e : Int} (hse : s ≤ e) :
    (xfrange s e 1).toFinset = Finset.Icc s e := by
  ext x
  rw [List.mem_toFinset, mem_xfrange_one hse, Finset.mem_Icc]

theorem uniqueList_spec : ∀ (l : List Int) (seen : Finset Int),
    (uniqueList seen l).Nodup ∧ ∀ x ∈ uniqueList seen l, x ∉ seen := by
  intro l
  induction l with
  | nil => intro seen; simp [uniqueList]
  | cons a t ih =>
    intro seen
    by_cases ha : a ∈ seen
    · simpa [uniqueList, ha] using ih seen
    · simp only [uniqueList, if_neg ha]
      obtain ⟨hn, hmem⟩ := ih (insert a seen)
      refine ⟨List.nodup_cons.mpr ⟨fun hin => hmem a hin (Finset.mem_insert_self a seen), hn⟩, ?_⟩
      intro x hx
      rcases List.mem_cons.mp hx with rfl | hx'
      · exact ha
      · exact fun hxs => hmem x hx' (Finset.mem_insert_of_mem hxs)

theorem uniqueList_eq_self : ∀ (l : List Int) (seen : Finset Int), l.Nodup →
    (∀ x ∈ l, x ∉ seen) → uniqueList seen l = l := by
  intro l
  induction l with
  | nil => intro seen _ _; simp [uniqueList]
  | cons a t ih =>
    intro seen hnd hdis
    rw [uniqueList, if_neg (hdis a (by simp))]
    congr 1
    refine ih _ (List.nodup_cons.mp hnd).2 ?_
    intro x hx
    rw [Finset.mem_insert]
    push_neg
    exact ⟨fun hxa => ((List.nodup_cons.mp hnd).1 (hxa ▸ hx)).elim, hdis x (by simp [hx])⟩

theorem pushFrames_valid {st : Finset Int × List Int} {l : List Int}
    (h : ValidSt st) (hl : l.Nodup) : ValidSt (pushFrames st l) := by
  obtain ⟨hi, hn⟩ := h
  unfold pushFrames ValidSt
  dsimp only
  constructor
  · rw [List.toFinset_append, hi]
  · refine List.Nodup.append hn (hl.filter _) ?_
    intro a ha hf
    have h1 : a ∈ st.1 := by rw [hi, List.mem_toFinset]; exact ha
    have h2 : a ∉ st.1 := by
      have := List.mem_filter.mp hf
      simpa using this.2
    exact h2 h1

theorem foldl_pushFrames_valid (s e : Int) :
    ∀ (ks : List Int) (st : Finset Int × List Int), ValidSt st →
      ValidSt (ks.foldl (fun st k => pushFrames st (xfrange s e k)) st) := by
  intro ks
  induction ks with
  | nil => intro st h; exact h
  | cons k t ih =>
    intro st h
    exact ih _ (pushFrames_valid h (xfrange_nodup s e k))

theorem expandPart_valid {st : Finset Int × List Int}
    (h : ValidSt st) (p : Int × Int × Option Char × Int) :
    ValidSt (expandPart st p) := by
  obtain ⟨start, e, mod, chunk⟩ := p
  unfold expandPart
  split
  · exact pushFrames_valid h (xfrange_nodup _ _ _)
  · exact foldl_pushFrames_valid _ _ _ _ h
  · exact pushFrames_valid h ((xfrange_nodup _ _ _).filter _)
  · exact pushFrames_valid h (xfrange_nodup _ _ _)

theorem parseParts_valid : ∀ (parts : List (List Char)) (st : Finset Int × List Int),
    ValidSt st → ∀ {r}, parseParts st parts = .ok r → ValidSt r := by
  intro parts
  induction parts with
  | nil =>
    intro st h r hr
    unfold parseParts at hr
    cases hr
    exact h
  | cons p t ih =>
    intro st h r hr
    unfold parseParts at hr
    split at hr
    · exact ih st h hr
    · split at hr
      · exact absurd hr (by simp)
      · exact ih _ (expandPart_valid h _) hr

theorem parseFrameSet_valid {s : String} {fs : FrameSet}
    (h : parseFrameSet s = .ok fs) : Valid fs := by
  unfold parseFrameSet parseStripped at h
  split at h
  · cases h
    exact ⟨by simp, List.nodup_nil⟩
  · split at h
    · exact absurd h (by simp)
    · rename_i st hst
      cases h
      exact parseParts_valid _ _ ⟨by simp, List.nodup_nil⟩ hst

theorem fromIterableList_valid (sort : Bool) (l : List Int) :
    Valid (fromIterableList sort l) := by
  refine ⟨rfl, ?_⟩
  exact (uniqueList_spec _ _).1

theorem fromIterableFinset_order (S : Finset Int) :
    (fromIterableFinset S).order = S.sort (· ≤ ·) := by
  show uniqueList ∅ (S.sort (· ≤ ·)) = S.sort (· ≤ ·)
  exact uniqueList_eq_self _ _ (Finset.sort_nodup _ _) (by simp)

theorem fromIterableFinset_items (S : Finset Int) :
    (fromIterableFinset S).items = S := by
  have h : (fromIterableFinset S).items = (fromIterableFinset S).order.toFinset := rfl
  rw [h, fromIterableFinset_order, Finset.sort_toFinset]

theorem pushFrames_items_eq (st : Finset Int × List Int) (l : List Int) :
    (pushFrames st l).1 = st.1 ∪ l.toFinset := by
  unfold pushFrames
  dsimp only
  ext x
  simp only [Finset.mem_union, List.mem_toFinset, List.mem_filter, decide_eq_true_eq]
  tauto

theorem foldl_pushFrames_items (s e : Int) : ∀ (ks : List Int) (st : Finset Int × List Int),
    (ks.foldl (fun st k => pushFrames st (xfrange s e k)) st).1 =
      st.1 ∪ xfrangeUnion s e ks := by
  intro ks
  induction ks with
  | nil => intro st; simp [xfrangeUnion]
  | cons k t ih =>
    intro st
    rw [List.foldl_cons, ih, pushFrames_items_eq]
    show _ = st.1 ∪ ((xfrange s e k).toFinset ∪ xfrangeUnion s e t)
    rw [Finset.union_assoc]

theorem xfrangeUnion_subset_Icc {s e : Int} (hse : s ≤ e) :
    ∀ ks : List Int, xfrangeUnion s e ks ⊆ Finset.Icc s e := by
  intro ks
  induction ks with
  | nil => simp [xfrangeUnion]
  | cons k t ih =>
    simp only [xfrangeUnion]
    refine Finset.union_subset ?_ ih
    intro x hx
    rw [List.mem_toFinset] at hx
    rw [Finset.mem_Icc]
    exact xfrange_mem_bounds hse hx

theorem subset_xfrangeUnion {s e k : Int} :
    ∀ {ks : List Int}, k ∈ ks → (xfrange s e k).toFinset ⊆ xfrangeUnion s e ks := by
  intro ks
  induction ks with
  | nil => intro h; exact absurd h (by simp)
  | cons a t ih =>
    intro h
    rcases List.mem_cons.mp h with rfl | h'
    · exact Finset.subset_union_left
    · exact (ih h').trans Finset.subset_union_right

theorem one_mem_staggerStrides {c : Int} (hc : 0 < c) : 1 ∈ staggerStrides c := by
  unfold staggerStrides xrangeList xrangeLen
  rw [if_neg (by norm_num), if_pos (by norm_num : (-1 : Int) < 0), if_pos (by omega : (0:Int) < c)]
  simp only [neg_neg, Int.toNat_one, Nat.add_sub_cancel, Nat.div_one, sub_zero,
    List.mem_map, List.mem_range]
  exact ⟨c.toNat - 1, by omega, by omega⟩

theorem expandPart_colon_items {st : Finset Int × List Int} {s e c : Int}
    (hse : s ≤ e) (hc : 0 < c) :
    (expandPart st (s, e, some ':', c)).1 = st.1 ∪ Finset.Icc s e := by
  have hred : expandPart st (s, e, some ':', c) =
      (staggerStrides c).foldl (fun st k => pushFrames st (xfrange s e k)) st := rfl
  rw [hred, foldl_pushFrames_items]
  refine Finset.Subset.antisymm ?_ ?_
  · exact Finset.union_subset Finset.subset_union_left
      ((xfrangeUnion_subset_Icc hse _).trans Finset.subset_union_right)
  · refine Finset.union_subset Finset.subset_union_left ?_
    have h1 : Finset.Icc s e ⊆ xfrangeUnion s e (staggerStrides c) := by
      rw [← xfrange_one_toFinset hse]
      exact subset_xfrangeUnion (one_mem_staggerStrides hc)
    exact h1.trans Finset.subset_union_right

theorem stripPad_idem (s : String) : stripPad (stripPad s) = stripPad s := by
  simp only [stripPad, String.toList]
  rw [List.filter_filter]
  simp

theorem stripPad_eq_empty {s : String} (h : ∀ c ∈ s.toList, c = '#' ∨ c = '@') :
    stripPad s = "" := by
  have he : s.toList.filter (fun c => ¬(c = '#' ∨ c = '@')) = [] := by
    rw [List.filter_eq_nil_iff]
    intro a ha
    simp [h a ha]
  show String.mk _ = ""
  rw [he]

theorem parseFrangePart_error_iff (p : String) :
    (∃ e, parseFrangePart p = .error e) ↔
      (matchFrangeChars p.toList = none ∨
        ∃ n1 d1 n2 d2 m d3,
          matchFrangeChars p.toList = some (n1, d1, some (n2, d2, some (m, d3))) ∧
            digitsToNat d3 = 0) := by
  cases hm : matchFrangeChars p.toList with
  | none =>
    have herr : parseFrangePart p =
        .error ("Could not parse \"" ++ p ++ "\": did not match " ++ rangePattern) := by
      unfold parseFrangePart
      rw [hm]
    exact ⟨fun _ => Or.inl rfl, fun _ => ⟨_, herr⟩⟩
  | some g =>
    obtain ⟨n1, d1, rest⟩ := g
    cases rest with
    | none =>
      have hok : parseFrangePart p =
          .ok (intOfGroup n1 d1, intOfGroup n1 d1, none, 1) := by
        unfold parseFrangePart
        rw [hm]
        rfl
      constructor
      · rintro ⟨e, he⟩
        rw [hok] at he
        exact absurd he (by simp)
      · rintro (hnone | ⟨n1', d1', n2', d2', m', d3', heq, _⟩)
        · exact absurd hnone (by simp)
        · exact absurd heq (by simp)
    | some t2 =>
      obtain ⟨n2, d2, mrest⟩ := t2
      cases mrest with
      | none =>
        have hok : parseFrangePart p =
            .ok (intOfGroup n1 d1, intOfGroup n2 d2, none, 1) := by
          unfold parseFrangePart
          rw [hm]
          rfl
        constructor
        · rintro ⟨e, he⟩
          rw [hok] at he
          exact absurd he (by simp)
        · rintro (hnone | ⟨n1', d1', n2', d2', m', d3', heq, _⟩)
          · exact absurd hnone (by simp)
          · exact absurd heq (by simp)
      | some md =>
        obtain ⟨m, d3⟩ := md
        by_cases hz : digitsToNat d3 = 0
        · have herr : parseFrangePart p =
              .error ("Could not parse \"" ++ p ++ "\": chunk cannot be 0") := by
            unfold parseFrangePart
            rw [hm]
            dsimp only
            rw [if_pos (by exact_mod_cast hz : ((digitsToNat d3 : Nat) : Int) = 0)]
          exact ⟨fun _ => Or.inr ⟨n1, d1, n2, d2, m, d3, rfl, hz⟩, fun _ => ⟨_, herr⟩⟩
        · have hok : parseFrangePart p =
              .ok (intOfGroup n1 d1, intOfGroup n2 d2, some m, (digitsToNat d3 : Int)) := by
            unfold parseFrangePart
            rw [hm]
            dsimp only
            rw [if_neg (fun hc => hz (by exact_mod_cast hc))]
          constructor
          · rintro ⟨e, he⟩
            rw [hok] at he
            exact absurd he (by simp)
          · rintro (hnone | ⟨n1', d1', n2', d2', m', d3', heq, hz'⟩)
            · exact absurd hnone (by simp)
            · simp only [Option.some.injEq, Prod.mk.injEq] at heq
              obtain ⟨-, -, -, -, -, h6⟩ := heq
              exact absurd (h6 ▸ hz') hz

theorem parseParts_error_iff : ∀ (parts : List (List Char)) (st : Finset Int × List Int),
    (∃ e, parseParts st parts = .error e) ↔
      ∃ p ∈ parts, p ≠ [] ∧ ∃ e, parseFrangePart (String.mk p) = .error e := by
  intro parts
  induction parts with
  | nil =>
    intro st
    simp [parseParts]
  | cons p t ih =>
    intro st
    by_cases hp : p = []
    · subst hp
      rw [show parseParts st ([] :: t) = parseParts st t from by simp [parseParts]]
      rw [ih st]
      constructor
      · rintro ⟨q, hq, hne, he⟩
        exact ⟨q, List.mem_cons_of_mem _ hq, hne, he⟩
      · rintro ⟨q, hq, hne, he⟩
        rcases List.mem_cons.mp hq with rfl | hq'
        · exact absurd rfl hne
        · exact ⟨q, hq', hne, he⟩
    · cases hpp : parseFrangePart (String.mk p) with
      | error e0 =>
        have hred : parseParts st (p :: t) = .error e0 := by
          unfold parseParts
          rw [if_neg hp, hpp]
        constructor
        · intro _
          exact ⟨p, by simp, hp, e0, hpp⟩
        · intro _
          exact ⟨e0, hred⟩
      | ok tup =>
        have hred : parseParts st (p :: t) = parseParts (expandPart st tup) t := by
          conv_lhs => rw [parseParts]
          rw [if_neg hp, hpp]
        rw [show (∃ e, parseParts st (p :: t) = .error e) ↔
            (∃ e, parseParts (expandPart st tup) t = .error e) from by rw [hred]]
        rw [ih _]
        constructor
        · rintro ⟨q, hq, hne, he⟩
          exact ⟨q, List.mem_cons_of_mem _ hq, hne, he⟩
        · rintro ⟨q, hq, hne, he⟩
          rcases List.mem_cons.mp hq with rfl | hq'
          · obtain ⟨e, he'⟩ := he
            rw [hpp] at he'
            exact absurd he' (by simp)
          · exact ⟨q, hq', hne, he⟩

theorem parseFrameSet_error_iff (s : String) :
    (∃ e, parseFrameSet s = .error e) ↔
      ∃ p ∈ splitCommas (stripPad s).toList, p ≠ [] ∧
        ∃ e, parseFrangePart (String.mk p) = .error e := by
  unfold parseFrameSet parseStripped
  by_cases hs : stripPad s = ""
  · rw [if_pos hs, hs]
    show (∃ e, (Except.ok ⟨"", [], ∅⟩ : Except String FrameSet) = .error e) ↔ _
    rw [show ("" : String).toList = [] from rfl]
    simp [splitCommas]
  · rw [if_neg hs]
    have hb : (∃ e, (match parseParts (∅, []) (splitCommas (stripPad s).toList) with
        | .error e => (.error e : Except String FrameSet)
        | .ok st => .ok ⟨stripPad s, st.2, st.1⟩) = .error e) ↔
        (∃ e, parseParts (∅, []) (splitCommas (stripPad s).toList) = .error e) := by
      cases h : parseParts (∅, []) (splitCommas (stripPad s).toList) with
      | error e0 => simp
      | ok st => simp
    rw [hb, parseParts_error_iff]

theorem spanDigits_concat {d r : List Char} (hd : ∀ c ∈ d, c.isDigit = true)
    (hr : ∀ c rs, r = c :: rs → c.isDigit = false) :
    spanDigits (d ++ r) = (d, r) := by
  induction d with
  | nil =>
    simp only [List.nil_append]
    cases r with
    | nil => rfl
    | cons c rs =>
      rw [spanDigits, if_neg (by simp [hr c rs rfl])]
  | cons c d' ih =>
    rw [List.cons_append, spanDigits, if_pos (hd c (by simp)),
      ih (fun x hx => hd x (by simp [hx]))]

theorem takeSign_digit {c : Char} (rest : List Char) (h : c.isDigit = true) :
    takeSign (c :: rest) = (false, c :: rest) := by
  unfold takeSign
  dsimp only
  rw [if_neg (fun hc => by rw [hc.1] at h; exact absurd h (by decide))]

theorem takeSign_neg {rest : List Char} {c : Char} {rs : List Char} (hr : rest = c :: rs)
    (hd : c.isDigit = true) : takeSign ('-' :: rest) = (true, rest) := by
  subst hr
  unfold takeSign
  dsimp only
  rw [if_pos ⟨rfl, by simpa using hd⟩]

theorem matchPadAt_eq {w : Nat} {l : List Char} {c : Char} {d1' l2 : List Char}
    (h : spanDigits (takeSign l).2 = (c :: d1', l2)) :
    matchPadAt w l = some (padBase w (takeSign l).1 (c :: d1') ++ (padTail2 w l2).1,
      (padTail2 w l2).2) := by
  unfold matchPadAt
  rw [h]

theorem padTail2_eq {w : Nat} {l3 : List Char} {c : Char} {d2' l5 : List Char}
    (h : spanDigits (takeSign l3).2 = (c :: d2', l5)) :
    padTail2 w ('-' :: l3) =
      ('-' :: (padBase w (takeSign l3).1 (c :: d2') ++ (padTail3 l5).1),
        (padTail3 l5).2) := by
  rw [padTail2, h]

theorem padTail3_mod {mc : Char} (hmc : mc = ':' ∨ mc = 'x' ∨ mc = 'y')
    {l6 : List Char} {c : Char} {d3' l7 : List Char}
    (h : spanDigits l6 = (c :: d3', l7)) :
    padTail3 (mc :: l6) = (mc :: (c :: d3'), l7) := by
  rw [padTail3, if_pos hmc, h]

theorem padSub_match {w : Nat} {l rep rest : List Char}
    (hm : matchPadAt w l = some (rep, rest)) :
    padSub w l = rep ++ padSub w rest := by
  cases l with
  | nil =>
    rw [show matchPadAt w [] = none from rfl] at hm
    exact absurd hm (by simp)
  | cons c rest0 =>
    show padSubAux w (rest0.length + 1) (c :: rest0) = _
    rw [show padSubAux w (rest0.length + 1) (c :: rest0) =
      (match matchPadAt w (c :: rest0) with
       | some pr => pr.1 ++ padSubAux w rest0.length pr.2
       | none => c :: padSubAux w rest0.length rest0) from rfl]
    rw [hm]
    dsimp only
    congr 1
    refine padSubAux_fuel w rest0.length rest.length rest ?_ (le_refl _)
    have := matchPadAt_rest_length hm
    simp only [List.length_cons] at this
    omega

theorem padSub_comma (w : Nat) (x : List Char) :
    padSub w (',' :: x) = ',' :: padSub w x := rfl

theorem takeSign_seg {n : Bool} {d X : List Char} (hne : d ≠ [])
    (hd : ∀ c ∈ d, c.isDigit = true) :
    takeSign ((if n then ['-'] else []) ++ (d ++ X)) = (n, d ++ X) := by
  obtain ⟨c, d', rfl⟩ : ∃ c d', d = c :: d' := by
    cases d with
    | nil => exact absurd rfl hne
    | cons a b => exact ⟨a, b, rfl⟩
  cases n with
  | false =>
    rw [if_neg (by simp), List.nil_append, List.cons_append]
    exact takeSign_digit _ (hd c (by simp))
  | true =>
    rw [if_pos rfl]
    rw [show (['-'] : List Char) ++ ((c :: d') ++ X) = '-' :: ((c :: d') ++ X) from rfl]
    exact takeSign_neg (by rw [List.cons_append]) (hd c (by simp))

theorem matchPad_clause {w : Nat} {g : ClauseGroups} (hg : GroupsWF g) {r : List Char}
    (hr : r = [] ∨ ∃ r', r = ',' :: r') :
    matchPadAt w (renderGroups g ++ r) = some (paddedGroups w g, r) := by
  obtain ⟨n1, d1, t⟩ := g
  obtain ⟨hd1ne, hd1dig, htail⟩ := hg
  have hrhead : ∀ c rs, r = c :: rs → c.isDigit = false := by
    rintro c rs hc
    rcases hr with rfl | ⟨r', rfl⟩
    · exact absurd hc (by simp)
    · injection hc with h1 _
      rw [← h1]
      decide
  have hpt2r : padTail2 w r = ([], r) := by
    rcases hr with rfl | ⟨r', rfl⟩
    · rfl
    · rfl
  have hpt3r : padTail3 r = ([], r) := by
    rcases hr with rfl | ⟨r', rfl⟩
    · rfl
    · rfl
  obtain ⟨c1, d1', rfl⟩ : ∃ c d', d1 = c :: d' := by
    cases d1 with
    | nil => exact absurd rfl hd1ne
    | cons a b => exact ⟨a, b, rfl⟩
  cases t with
  | none =>
    have hL : renderGroups (n1, c1 :: d1', none) ++ r =
        (if n1 then ['-'] else []) ++ ((c1 :: d1') ++ r) := by
      simp [renderGroups, List.append_assoc]
    have hts := takeSign_seg (n := n1) (X := r) (by simp) hd1dig
    have hsp := spanDigits_concat hd1dig hrhead
    rw [hL, matchPadAt_eq (by rw [hts]; exact hsp), hts, hpt2r]
    simp [paddedGroups]
  | some t2 =>
    obtain ⟨n2, d2, m⟩ := t2
    obtain ⟨hd2ne, hd2dig, hmod⟩ := htail
    obtain ⟨c2, d2', rfl⟩ : ∃ c d', d2 = c :: d' := by
      cases d2 with
      | nil => exact absurd rfl hd2ne
      | cons a b => exact ⟨a, b, rfl⟩
    cases m with
    | none =>
      have hL : renderGroups (n1, c1 :: d1', some (n2, c2 :: d2', none)) ++ r =
          (if n1 then ['-'] else []) ++ ((c1 :: d1') ++
            ('-' :: ((if n2 then ['-'] else []) ++ ((c2 :: d2') ++ r)))) := by
        simp [renderGroups, List.append_assoc]
      have hts1 := takeSign_seg (n := n1)
        (X := '-' :: ((if n2 then ['-'] else []) ++ ((c2 :: d2') ++ r))) (by simp) hd1dig
      have hsp1 := spanDigits_concat (r := '-' :: ((if n2 then ['-'] else []) ++
          ((c2 :: d2') ++ r))) hd1dig
        (by rintro c rs hc; injection hc with h1 _; rw [← h1]; decide)
      have hts2 := takeSign_seg (n := n2) (X := r) (by simp) hd2dig
      have hsp2 := spanDigits_concat hd2dig hrhead
      rw [hL, matchPadAt_eq (by rw [hts1]; exact hsp1), hts1]
      rw [padTail2_eq (by rw [hts2]; exact hsp2), hts2, hpt3r]
      simp [paddedGroups]
    | some md =>
      obtain ⟨mc, d3⟩ := md
      obtain ⟨hmc, hd3ne, hd3dig⟩ := hmod
      obtain ⟨c3, d3', rfl⟩ : ∃ c d', d3 = c :: d' := by
        cases d3 with
        | nil => exact absurd rfl hd3ne
        | cons a b => exact ⟨a, b, rfl⟩
      have hmcd : mc.isDigit = false := by
        rcases hmc with rfl | rfl | rfl
        · decide
        · decide
        · decide
      have hL : renderGroups (n1, c1 :: d1', some (n2, c2 :: d2', some (mc, c3 :: d3'))) ++ r =
          (if n1 then ['-'] else []) ++ ((c1 :: d1') ++
            ('-' :: ((if n2 then ['-'] else []) ++ ((c2 :: d2') ++
              (mc :: ((c3 :: d3') ++ r)))))) := by
        simp [renderGroups, List.append_assoc]
      have hts1 := takeSign_seg (n := n1)
        (X := '-' :: ((if n2 then ['-'] else []) ++ ((c2 :: d2') ++
          (mc :: ((c3 :: d3') ++ r))))) (by simp) hd1dig
      have hsp1 := spanDigits_concat (r := '-' :: ((if n2 then ['-'] else []) ++
          ((c2 :: d2') ++ (mc :: ((c3 :: d3') ++ r))))) hd1dig
        (by rintro c rs hc; injection hc with h1 _; rw [← h1]; decide)
      have hts2 := takeSign_seg (n := n2) (X := mc :: ((c3 :: d3') ++ r)) (by simp) hd2dig
      have hsp2 := spanDigits_concat (r := mc :: ((c3 :: d3') ++ r)) hd2dig
        (by rintro c rs hc; injection hc with h1 _; rw [← h1]; exact hmcd)
      have hsp3 := spanDigits_concat hd3dig hrhead
      rw [hL, matchPadAt_eq (by rw [hts1]; exact hsp1), hts1]
      rw [padTail2_eq (by rw [hts2]; exact hsp2), hts2]
      rw [padTail3_mod hmc hsp3]
      simp [paddedGroups]

theorem padSub_clause {w : Nat} {g : ClauseGroups} (hg : GroupsWF g) {r : List Char}
    (hr : r = [] ∨ ∃ r', r = ',' :: r') :
    padSub w (renderGroups g ++ r) = paddedGroups w g ++ padSub w r :=
  padSub_match (matchPad_clause hg hr)

theorem padSub_joined (w : Nat) : ∀ gs : List ClauseGroups, (∀ g ∈ gs, GroupsWF g) →
    padSub w (joinCharComma (gs.map renderGroups)) =
      joinCharComma (gs.map (paddedGroups w)) := by
  intro gs
  induction gs with
  | nil => intro _; rfl
  | cons g gs' ih =>
    intro hwf
    cases gs' with
    | nil =>
      show padSub w (renderGroups g) = paddedGroups w g
      have h := padSub_clause (w := w) (hwf g (by simp)) (Or.inl rfl)
      rw [List.append_nil, show padSub w ([] : List Char) = [] from rfl,
        List.append_nil] at h
      exact h
    | cons g2 gs'' =>
      show padSub w (renderGroups g ++ ',' ::
          joinCharComma ((g2 :: gs'').map renderGroups)) = _
      rw [padSub_clause (hwf g (by simp)) (Or.inr ⟨_, rfl⟩), padSub_comma,
        ih (fun x hx => hwf x (by simp [hx]))]
      rfl

theorem spanDigits_recover (l : List Char) :
    (spanDigits l).1 ++ (spanDigits l).2 = l ∧
      ∀ c ∈ (spanDigits l).1, c.isDigit = true := by
  induction l with
  | nil => exact ⟨rfl, by simp [spanDigits]⟩
  | cons c rest ih =>
    by_cases h : c.isDigit
    · rw [spanDigits, if_pos h]
      refine ⟨?_, ?_⟩
      · show c :: ((spanDigits rest).1 ++ (spanDigits rest).2) = c :: rest
        rw [ih.1]
      · intro x hx
        rcases List.mem_cons.mp hx with rfl | hx'
        · exact h
        · exact ih.2 x hx'
    · rw [spanDigits, if_neg h]
      exact ⟨rfl, by simp⟩

theorem takeSign_recover (l : List Char) :
    (if (takeSign l).1 then ['-'] else []) ++ (takeSign l).2 = l := by
  cases l with
  | nil => rfl
  | cons c rest =>
    unfold takeSign
    dsimp only
    split
    · rename_i h
      show '-' :: rest = c :: rest
      rw [h.1]
    · rfl

theorem matchFrange_shape {l : List Char} {g : ClauseGroups}
    (h : matchFrangeChars l = some g) : GroupsWF g ∧ l = renderGroups g := by
  have hts := takeSign_recover l
  have hsd := spanDigits_recover (takeSign l).2
  unfold matchFrangeChars at h
  split at h
  · exact absurd h (by simp)
  · rename_i d1 hne heq
    cases h
    rw [heq] at hsd
    have h2 : (takeSign l).2 = d1 := by simpa using hsd.1.symm
    refine ⟨⟨fun hc => hne hc, hsd.2, trivial⟩, ?_⟩
    show l = (if (takeSign l).1 then ['-'] else []) ++ d1 ++ []
    conv_lhs => rw [← hts]
    rw [h2, List.append_nil]
  · rename_i d1 l3 hded heq
    have hts3 := takeSign_recover l3
    have hsd3 := spanDigits_recover (takeSign l3).2
    rw [heq] at hsd
    have h2 : (takeSign l).2 = d1 ++ '-' :: l3 := by simpa using hsd.1.symm
    split at h
    · exact absurd h (by simp)
    · rename_i d2 hne2 heq2
      cases h
      rw [heq2] at hsd3
      have h3 : (takeSign l3).2 = d2 := by simpa using hsd3.1.symm
      refine ⟨⟨fun hc => hded hc, hsd.2, fun hc => hne2 hc, hsd3.2, trivial⟩, ?_⟩
      show l = (if (takeSign l).1 then ['-'] else []) ++ d1 ++
        ('-' :: ((if (takeSign l3).1 then ['-'] else []) ++ d2 ++ []))
      conv_lhs => rw [← hts]
      rw [h2]
      conv_lhs => rw [← hts3]
      rw [h3]
      simp [List.append_assoc]
    · rename_i d2 m l6 hded2 heq2
      have hsd6 := spanDigits_recover l6
      rw [heq2] at hsd3
      have h3 : (takeSign l3).2 = d2 ++ m :: l6 := by simpa using hsd3.1.symm
      split at h
      · rename_i hmc
        split at h
        · exact absurd h (by simp)
        · rename_i d3 hne3 heq3
          cases h
          rw [heq3] at hsd6
          have h6 : l6 = d3 := by simpa using hsd6.1.symm
          refine ⟨⟨fun hc => hded hc, hsd.2, fun hc => hded2 hc, hsd3.2, hmc,
            fun hc => hne3 hc, hsd6.2⟩, ?_⟩
          show l = (if (takeSign l).1 then ['-'] else []) ++ d1 ++
            ('-' :: ((if (takeSign l3).1 then ['-'] else []) ++ d2 ++ (m :: d3)))
          conv_lhs => rw [← hts]
          rw [h2]
          conv_lhs => rw [← hts3]
          rw [h3, h6]
          simp [List.append_assoc]
        · exact absurd h (by simp)
      · exact absurd h (by simp)
  · exact absurd h (by simp)

/-- C1: the Run Compressor's pair tie-break.  Whenever the compression loop
reaches the end of input with an open run of exactly 2 members
(`curr_count = 2`), the final flush appends exactly the two standalone
single-frame tokens for `curr_start` and `curr_frame` — never a 2-element
range token; in particular `framesToFrameRange([5, 9])` is `"5,9"` (not
`"5-9x4"`), while `framesToFrameRange([5, 9, 13])` is `"5-13x4"` (3
consistent stride samples suffice for a stride token). -/
theorem C1_pair_tiebreak :
    (∀ (z : Nat) (frames : List Int) (a : Int) (st : Option Int) (lf cu : Int)
      (toks : List String), rcFold z frames = (.run a st lf cu 2, toks) →
      framesToFrameRanges frames z = toks ++ [pyZfill a z, pyZfill cu z]) ∧
    framesToFrameRange [5, 9] true 0 false = "5,9" ∧
    framesToFrameRange [5, 9, 13] true 0 false = "5-13x4" := by
  refine ⟨?_, by decide, by decide⟩
  intro z frames a st lf cu toks h
  unfold framesToFrameRanges
  rw [h]
  dsimp only
  simp [rcFinish, buildFrangePart]

theorem C1_pair_tiebreak_witness : framesToFrameRanges [5, 9] 0 = ["5", "9"] := by
  have h := C1_pair_tiebreak.1 0 [5, 9] 5 (some 4) 9 9 [] (by decide)
  simpa using h

/-- C2 (amended): the staggered `:` modifier accumulates the union of
`x`-style runs for every stride from `chunk` down to `1` (so its member set
over `start ≤ end` with a positive chunk is the whole inclusive interval),
and `parse("1-10:2")` has members `{1..10}`; however its order begins with
the stride-2 samples `1,3,5,7,9` — the ODD frames, since the range starts
at 1 — before the remaining even ones (coarse-to-fine), not with "the even
multiples" as the claim words it. -/
theorem C2_stagger_coarse_to_fine :
    (∀ (st : Finset Int × List Int) (s e c : Int), s ≤ e → 0 < c →
      (expandPart st (s, e, some ':', c)).1 = st.1 ∪ Finset.Icc s e) ∧
    (parseFrameSet "1-10:2").toOption.map FrameSet.order =
      some [1, 3, 5, 7, 9, 2, 4, 6, 8, 10] ∧
    (parseFrameSet "1-10:2").toOption.map FrameSet.items = some (Finset.Icc 1 10) := by
  refine ⟨fun st s e c h1 h2 => expandPart_colon_items h1 h2, by decide, ?_⟩
  have hp : parseFrameSet "1-10:2" =
      .ok ⟨"1-10:2", (expandPart (∅, []) (1, 10, some ':', 2)).2,
        (expandPart (∅, []) (1, 10, some ':', 2)).1⟩ := by rfl
  rw [hp]
  show some (expandPart (∅, []) (1, 10, some ':', 2)).1 = some (Finset.Icc 1 10)
  rw [expandPart_colon_items (by norm_num) (by norm_num)]
  simp

/-- C2 counterexample: the claim's words "order begins with the even
multiples before introducing odd ones" are false on the code: the order of
`parse("1-10:2")` is `[1,3,5,7,9,2,4,6,8,10]`, whose first five entries
are all odd. -/
theorem C2_stagger_counterexample :
    (parseFrameSet "1-10:2").toOption.map FrameSet.order =
      some [1, 3, 5, 7, 9, 2, 4, 6, 8, 10] ∧
    ((parseFrameSet "1-10:2").toOption.map fun fs => fs.order.take 5) =
      some [1, 3, 5, 7, 9] ∧
    (∀ x ∈ [(1 : Int), 3, 5, 7, 9], x % 2 = 1) := by
  refine ⟨by decide, by decide, by decide⟩

theorem C2_stagger_witness :
    (expandPart ((∅ : Finset Int), ([] : List Int)) (1, 10, some ':', 2)).1 =
      ∅ ∪ Finset.Icc 1 10 :=
  C2_stagger_coarse_to_fine.1 (∅, []) 1 10 2 (by decide) (by decide)

set_option maxRecDepth 8000 in
/-- C3: evaluation of the embedded code at the failing input.
`FrameSet("1-2")` and `FrameSet("1,2")` have identical `items` and `order`,
and `__eq__` holds between them, yet their `__hash__` values differ,
because `__hash__` ORs `hash(self.frange)` (the source text) into the
result.  This contradicts the claim (and the class's own documentation)
that hashing is a function of `(members, order)` only. -/
theorem C3_eq_hash_mismatch :
    parseFrameSet "1-2" = .ok ⟨"1-2", [1, 2], {1, 2}⟩ ∧
    parseFrameSet "1,2" = .ok ⟨"1,2", [1, 2], {1, 2}⟩ ∧
    FrameSet.eqOp ⟨"1-2", [1, 2], {1, 2}⟩ (.fs ⟨"1,2", [1, 2], {1, 2}⟩) = some true ∧
    pyHashFrameSet ⟨"1-2", [1, 2], {1, 2}⟩ ≠ pyHashFrameSet ⟨"1,2", [1, 2], {1, 2}⟩ := by
  refine ⟨by decide, by decide, by decide, by decide⟩

/-- C4 (amended): every comparison and the operator forms, plus
`symmetric_difference`, `isdisjoint`, `issubset` and `issuperset`, return
the `NotImplemented` sentinel (`none`) on a non-iterable operand — but
`union`, `intersection` and `difference` do not: they coerce via `set()`
directly and raise a `TypeError` (modelled as `Except.error`) instead. -/
theorem C4_notapplicable_amended :
    (∀ a : FrameSet,
      castToFrameSet .notIterable = none ∧
      a.symmetric_difference .notIterable = none ∧
      a.isdisjoint .notIterable = none ∧
      a.issubset .notIterable = none ∧
      a.issuperset .notIterable = none ∧
      a.eqOp .notIterable = none ∧
      a.ltOp .notIterable = none ∧
      a.leOp .notIterable = none ∧
      a.geOp .notIterable = none ∧
      a.gtOp .notIterable = none ∧
      a.andOp .notIterable = none ∧
      a.orOp .notIterable = none ∧
      a.subOp .notIterable = none ∧
      a.xorOp .notIterable = none) ∧
    (∀ a : FrameSet,
      a.union .notIterable = .error "TypeError: argument of set() is not iterable" ∧
      a.intersection .notIterable = .error "TypeError: argument of set() is not iterable" ∧
      a.difference .notIterable = .error "TypeError: argument of set() is not iterable") :=
  ⟨fun _ => ⟨rfl, rfl, rfl, rfl, rfl, rfl, rfl, rfl, rfl, rfl, rfl, rfl, rfl, rfl⟩,
   fun _ => ⟨rfl, rfl, rfl⟩⟩

/-- C4 counterexample: the claim "union ... returns the 'not applicable'
sentinel rather than raising" fails at a concrete input: `union` with a
non-iterable operand raises a `TypeError` (an `Except.error`, not a
sentinel result). -/
theorem C4_notapplicable_counterexample :
    FrameSet.union ⟨"", [], ∅⟩ .notIterable =
      .error "TypeError: argument of set() is not iterable" := rfl

/-- C5: algebra laws.  For valid operands, `union` returns a FrameSet whose
members are the set union, `intersection` is commutative, `difference`
computes set difference, `intersection`'s members are the set intersection,
`symmetric_difference` computes the symmetric difference, and the `order`
of every algebra result is sorted ascending regardless of operand order. -/
theorem C5_algebra_laws :
    (∀ A B : FrameSet, Valid B → ∃ C, A.union (.fs B) = .ok C ∧
      C.items = A.items ∪ B.items ∧ List.Sorted (· ≤ ·) C.order) ∧
    (∀ A B : FrameSet, Valid A → Valid B →
      A.intersection (.fs B) = B.intersection (.fs A)) ∧
    (∀ A B : FrameSet, Valid B → ∃ C, A.difference (.fs B) = .ok C ∧
      C.items = A.items \ B.items ∧ List.Sorted (· ≤ ·) C.order) ∧
    (∀ A B : FrameSet, Valid B → ∃ C, A.intersection (.fs B) = .ok C ∧
      C.items = A.items ∩ B.items ∧ List.Sorted (· ≤ ·) C.order) ∧
    (∀ A B : FrameSet, ∃ C, A.symmetric_difference (.fs B) = some C ∧
      C.items = (A.items \ B.items) ∪ (B.items \ A.items) ∧
      List.Sorted (· ≤ ·) C.order) := by
  refine ⟨?_, ?_, ?_, ?_, ?_⟩
  · intro A B hB
    refine ⟨_, rfl, ?_, ?_⟩
    · rw [fromIterableFinset_items, ← hB.1]
    · rw [fromIterableFinset_order]
      exact Finset.sort_sorted _ _
  · intro A B hA hB
    show Except.ok (fromIterableFinset (A.items ∩ B.order.toFinset)) =
      Except.ok (fromIterableFinset (B.items ∩ A.order.toFinset))
    rw [← hA.1, ← hB.1, Finset.inter_comm]
  · intro A B hB
    refine ⟨_, rfl, ?_, ?_⟩
    · rw [fromIterableFinset_items, ← hB.1]
    · rw [fromIterableFinset_order]
      exact Finset.sort_sorted _ _
  · intro A B hB
    refine ⟨_, rfl, ?_, ?_⟩
    · rw [fromIterableFinset_items, ← hB.1]
    · rw [fromIterableFinset_order]
      exact Finset.sort_sorted _ _
  · intro A B
    refine ⟨_, rfl, ?_, ?_⟩
    · rw [fromIterableFinset_items]
    · rw [fromIterableFinset_order]
      exact Finset.sort_sorted _ _

theorem C5_algebra_laws_witness :
    (∃ C, FrameSet.union ⟨"1-3", [1, 2, 3], {1, 2, 3}⟩
        (.fs ⟨"2-5", [2, 3, 4, 5], {2, 3, 4, 5}⟩) = .ok C ∧
      C.items = {1, 2, 3} ∪ {2, 3, 4, 5} ∧ List.Sorted (· ≤ ·) C.order) ∧
    FrameSet.intersection ⟨"1-3", [1, 2, 3], {1, 2, 3}⟩
        (.fs ⟨"2-5", [2, 3, 4, 5], {2, 3, 4, 5}⟩) =
      FrameSet.intersection ⟨"2-5", [2, 3, 4, 5], {2, 3, 4, 5}⟩
        (.fs ⟨"1-3", [1, 2, 3], {1, 2, 3}⟩) ∧
    (∃ C, FrameSet.difference ⟨"1-3", [1, 2, 3], {1, 2, 3}⟩
        (.fs ⟨"2-5", [2, 3, 4, 5], {2, 3, 4, 5}⟩) = .ok C ∧
      C.items = {1, 2, 3} \ {2, 3, 4, 5} ∧ List.Sorted (· ≤ ·) C.order) :=
  ⟨C5_algebra_laws.1 ⟨"1-3", [1, 2, 3], {1, 2, 3}⟩ ⟨"2-5", [2, 3, 4, 5], {2, 3, 4, 5}⟩
      (by decide),
   C5_algebra_laws.2.1 ⟨"1-3", [1, 2, 3], {1, 2, 3}⟩ ⟨"2-5", [2, 3, 4, 5], {2, 3, 4, 5}⟩
      (by decide) (by decide),
   C5_algebra_laws.2.2.1 ⟨"1-3", [1, 2, 3], {1, 2, 3}⟩ ⟨"2-5", [2, 3, 4, 5], {2, 3, 4, 5}⟩
      (by decide)⟩

/-- C6: the invariant `members == setOf(order)` (with `order` free of
duplicates, hence `len(order) == len(members)`) holds for every FrameSet
produced by parsing, by `from_iterable`, by any algebra call (which all go
through `from_iterable` on a set), and by `normalize`.  Operations are
embedded as pure functions: every "mutating-looking" operation returns a
new value and cannot change its receiver. -/
theorem C6_invariants :
    (∀ (s : String) (fs : FrameSet), parseFrameSet s = .ok fs →
      fs.items = fs.order.toFinset ∧ fs.order.Nodup ∧
        fs.order.length = fs.items.card) ∧
    (∀ (sort : Bool) (l : List Int),
      (fromIterableList sort l).items = (fromIterableList sort l).order.toFinset ∧
        (fromIterableList sort l).order.Nodup) ∧
    (∀ S : Finset Int,
      (fromIterableFinset S).items = (fromIterableFinset S).order.toFinset ∧
        (fromIterableFinset S).order.Nodup) ∧
    (∀ fs fs' : FrameSet, fs.normalize = .ok fs' →
      fs'.items = fs'.order.toFinset ∧ fs'.order.Nodup) := by
  refine ⟨?_, ?_, ?_, ?_⟩
  · intro s fs h
    obtain ⟨h1, h2⟩ := parseFrameSet_valid h
    refine ⟨h1, h2, ?_⟩
    rw [h1, List.toFinset_card_of_nodup h2]
  · intro sort l
    exact fromIterableList_valid sort l
  · intro S
    exact fromIterableList_valid false _
  · intro fs fs' h
    exact parseFrameSet_valid h

theorem C6_invariants_witness :
    (⟨"1-5x2", [1, 3, 5], {1, 3, 5}⟩ : FrameSet).items =
        ([1, 3, 5] : List Int).toFinset ∧
      ([1, 3, 5] : List Int).Nodup ∧
      ([1, 3, 5] : List Int).length = ({1, 3, 5} : Finset Int).card := by
  have h := C6_invariants.1 "1-5x2" ⟨"1-5x2", [1, 3, 5], {1, 3, 5}⟩ (by decide)
  exact h

/-- C8: direction of expansion is inferred from `start <= stop` — the list
is strictly ascending when `start ≤ stop` and strictly descending
otherwise — and the sign of a supplied step is ignored
(`xfrange s e (-k) = xfrange s e k`); in particular
`parse("5--1").order == [5,4,3,2,1,0,-1]` and
`parse("-4--2").order == [-4,-3,-2]`. -/
theorem C8_direction_inference :
    (∀ s e k : Int, xfrange s e (-k) = xfrange s e k) ∧
    (∀ s e k : Int, s ≤ e → List.Sorted (· < ·) (xfrange s e k)) ∧
    (∀ s e k : Int, e < s → List.Sorted (· > ·) (xfrange s e k)) ∧
    (parseFrameSet "5--1").toOption.map FrameSet.order = some [5, 4, 3, 2, 1, 0, -1] ∧
    (parseFrameSet "-4--2").toOption.map FrameSet.order = some [-4, -3, -2] := by
  refine ⟨?_, ?_, ?_, by decide, by decide⟩
  · intro s e k
    simp [xfrange, Int.natAbs_neg]
  · intro s e k h
    exact xfrange_pairwise_asc h k
  · intro s e k h
    exact xfrange_pairwise_desc h k

theorem C8_direction_inference_witness :
    List.Sorted (· < ·) (xfrange 1 5 2) ∧ List.Sorted (· > ·) (xfrange 5 1 2) ∧
      xfrange 1 5 (-2) = xfrange 1 5 2 :=
  ⟨C8_direction_inference.2.1 1 5 2 (by decide),
   C8_direction_inference.2.2.1 5 1 2 (by decide),
   C8_direction_inference.1 1 5 2⟩

/-- C10: `FrameSet.__init__` deletes every `#` and `@` wherever it occurs
before parsing, so two inputs with the same stripped text parse to the
same FrameSet (e.g. `"1#-10@"` and `"1-10"`), a string of only padding
characters yields the empty FrameSet, and `isFrameRange` applies the same
stripping (and accepts padding-only strings). -/
theorem C10_padding_chars_stripped :
    (∀ s t : String, stripPad s = stripPad t → parseFrameSet s = parseFrameSet t) ∧
    (∀ s : String, isFrameRange s = isFrameRange (stripPad s)) ∧
    (∀ s : String, (∀ c ∈ s.toList, c = '#' ∨ c = '@') →
      parseFrameSet s = .ok ⟨"", [], ∅⟩ ∧ isFrameRange s = true) ∧
    parseFrameSet "1#-10@" = parseFrameSet "1-10" ∧
    (parseFrameSet "1#-10@").toOption.map FrameSet.order =
      some [1, 2, 3, 4, 5, 6, 7, 8, 9, 10] := by
  refine ⟨?_, ?_, ?_, by decide, by decide⟩
  · intro s t h
    show parseStripped (stripPad s) = parseStripped (stripPad t)
    rw [h]
  · intro s
    show isFrameRange s = isFrameRange (stripPad s)
    unfold isFrameRange
    rw [stripPad_idem]
  · intro s h
    have he : stripPad s = "" := stripPad_eq_empty h
    constructor
    · show parseStripped (stripPad s) = _
      rw [he]
      rfl
    · unfold isFrameRange
      rw [he]
      rfl

theorem C10_padding_chars_stripped_witness :
    parseFrameSet "1#-10@" = parseFrameSet "1-10" ∧
      (parseFrameSet "#@" = .ok ⟨"", [], ∅⟩ ∧ isFrameRange "#@" = true) :=
  ⟨C10_padding_chars_stripped.1 "1#-10@" "1-10" (by decide),
   C10_padding_chars_stripped.2.2.1 "#@" (by decide)⟩

/-- C9: the Padding Formatter.  Every clause the Range-Part Parser accepts
decomposes into `_RANGE_RE` capture groups (sign + digits, optional second
sign + digits, optional modifier + chunk digits), and on any comma-join of
such clauses `padFrameRange`'s substitution pass rewrites each clause to
`paddedGroups`: both literal integer digit groups zero-filled to the target
width with their signs kept outside the padding width, while the `-` range
separator, the commas, the modifier character and the chunk digits are
preserved untouched.  In particular `pad("1-100", 5) = "00001-00100"`,
`pad("1-100x5", 5) = "00001-00100x5"` (chunk unpadded), and
`pad("-3-5", 3) = "-003-005"`. -/
theorem C9_padding_formatter :
    (∀ (s : String) (g : ClauseGroups), matchFrangeChars s.toList = some g →
      GroupsWF g ∧ s.toList = renderGroups g) ∧
    (∀ (w : Nat) (gs : List ClauseGroups), (∀ g ∈ gs, GroupsWF g) →
      padSub w (joinCharComma (gs.map renderGroups)) =
        joinCharComma (gs.map (paddedGroups w))) ∧
    padFrameRange "1-100" 5 = "00001-00100" ∧
    padFrameRange "1-100x5" 5 = "00001-00100x5" ∧
    padFrameRange "-3-5" 3 = "-003-005" :=
  ⟨fun _ _ h => matchFrange_shape h, padSub_joined, by decide, by decide, by decide⟩

theorem C9_padding_formatter_witness :
    (GroupsWF ((false, ['1'], some (false, ['1', '0', '0'], some ('x', ['5']))) :
        ClauseGroups) ∧
      ("1-100x5" : String).toList =
        renderGroups (false, ['1'], some (false, ['1', '0', '0'], some ('x', ['5'])))) ∧
    padSub 5 (joinCharComma
        ([((false, ['1'], some (false, ['1', '0', '0'], none)) : ClauseGroups),
          ((true, ['3'], none) : ClauseGroups)].map renderGroups)) =
      joinCharComma
        ([((false, ['1'], some (false, ['1', '0', '0'], none)) : ClauseGroups),
          ((true, ['3'], none) : ClauseGroups)].map (paddedGroups 5)) :=
  ⟨C9_padding_formatter.1 "1-100x5"
      (false, ['1'], some (false, ['1', '0', '0'], some ('x', ['5']))) rfl,
   C9_padding_formatter.2.1 5
      [(false, ['1'], some (false, ['1', '0', '0'], none)), (true, ['3'], none)]
      (by
        intro g hg
        rcases List.mem_cons.mp hg with rfl | hg'
        · exact ⟨by decide, by decide, by decide, by decide, trivial⟩
        · rw [List.mem_singleton] at hg'
          subst hg'
          exact ⟨by decide, by decide, trivial⟩)⟩

/-- C7: parsing fails (raises `ParseException`, modelled as `Except.error`)
exactly when some nonempty comma-separated clause of the stripped input
either fails the `_RANGE_RE` grammar or has chunk 0; the failure aborts
construction entirely (an `error` result carries no FrameSet), and
`parse("1-10x0")` fails with the exact message naming the failing clause,
while a nonzero chunk parses.  Algebra and rendering are embedded as total
functions on already-constructed FrameSets, so they cannot raise this
error. -/
theorem C7_malformed_range :
    (∀ s : String, (∃ e, parseFrameSet s = .error e) ↔
      ∃ p ∈ splitCommas (stripPad s).toList, p ≠ [] ∧
        ∃ e, parseFrangePart (String.mk p) = .error e) ∧
    (∀ p : String, (∃ e, parseFrangePart p = .error e) ↔
      (matchFrangeChars p.toList = none ∨
        ∃ n1 d1 n2 d2 m d3,
          matchFrangeChars p.toList = some (n1, d1, some (n2, d2, some (m, d3))) ∧
            digitsToNat d3 = 0)) ∧
    parseFrameSet "1-10x0" = .error "Could not parse \"1-10x0\": chunk cannot be 0" ∧
    parseFrangePart "1-10x5" = .ok (1, 10, some 'x', 5) :=
  ⟨parseFrameSet_error_iff, parseFrangePart_error_iff, by decide, by decide⟩

end Fileseq
